import Mathlib

/-!
Verification of the searchmark in-memory search engine from
`app/db/database.py` (`SearchmarkDatabase.search_searchmarks`,
`SearchmarkDatabase.get_statistics`) over the record shape declared in
`app/models/searchmarkmodels.py`.  The Python methods are embedded as pure
Lean functions; the in-place write of `similarity_score` onto the shared
record dicts is made visible by returning the post-call dataset alongside
the result list.
-/

namespace Searchmark

/-- Python truthiness of an optional string field (`None` and `""` falsy). -/
def strTruthy : Option String → Bool
  | none => false
  | some s => !s.isEmpty

/-- Python truthiness of an optional list field (`None` and `[]` falsy). -/
def listTruthy : Option (List String) → Bool
  | none => false
  | some l => !l.isEmpty

/-- Python `str.lower()` (ASCII case mapping; Hangul has no case). -/
def pyLower (s : String) : String := String.mk (s.data.map Char.toLower)

/-- `needle` begins at the head of `hay` (character lists). -/
def listStarts : List Char → List Char → Bool
  | [], _ => true
  | _ :: _, [] => false
  | a :: as, b :: bs => a == b && listStarts as bs

/-- `needle` occurs contiguously somewhere in `hay`. -/
def listSubstr (needle : List Char) : List Char → Bool
  | [] => listStarts needle []
  | c :: hs => listStarts needle (c :: hs) || listSubstr needle hs

/-- Python substring test `needle in hay` on strings. -/
def pyIn (needle hay : String) : Bool := listSubstr needle.toList hay.toList

/-- Python's default strip set: `" \t\n\r\v\f"`. -/
def isPySpace (c : Char) : Bool :=
  c == ' ' || c == '\t' || c == '\n' || c == '\r' || c == '\x0b' || c == '\x0c'

/-- Python `str.strip()`: drop whitespace at both ends. -/
def pyStrip (s : String) : String :=
  String.mk ((((s.data.dropWhile isPySpace).reverse).dropWhile isPySpace).reverse)

/-- Python `s.split(',')` with a one-character separator: cut at every comma
(`cur` accumulates the pending piece in reverse). -/
def splitCommaAux : List Char → List Char → List String
  | cur, [] => [String.mk cur.reverse]
  | cur, c :: cs =>
      if c == ',' then String.mk cur.reverse :: splitCommaAux [] cs
      else splitCommaAux (c :: cur) cs

/-- Python `s.split(',')`. -/
def pySplitComma (s : String) : List String := splitCommaAux [] s.data

/-- Continue a digit run: digits, optionally separated by single underscores,
accumulated base 10; fails on a stray or trailing underscore. -/
def digitsRest (acc : Nat) : List Char → Option Nat
  | [] => some acc
  | '_' :: c :: cs => if c.isDigit then digitsRest (acc * 10 + (c.toNat - 48)) cs else none
  | c :: cs => if c.isDigit then digitsRest (acc * 10 + (c.toNat - 48)) cs else none

/-- A nonempty digit run with optional underscore separators. -/
def digitsVal : List Char → Option Nat
  | [] => none
  | c :: cs => if c.isDigit then digitsRest (c.toNat - 48) cs else none

/-- Python `int(s)`: strip surrounding whitespace, optional sign, decimal
digits with optional single underscore separators; `none` models the
`ValueError` the source catches. -/
def pyInt (s : String) : Option Int :=
  match (pyStrip s).toList with
  | '+' :: cs => (digitsVal cs).map (fun n => (n : Int))
  | '-' :: cs => (digitsVal cs).map (fun n => -(n : Int))
  | cs => (digitsVal cs).map (fun n => (n : Int))

/-- One trademark record: the `SearchmarkBase` fields the engine reads, as a
raw JSON object (`none` models an absent field; the multi-valued fields are
JSON arrays of strings per `searchmarkmodels.py`).  `similarity_score` is the
transient field the fuzzy branch writes onto stored records. -/
structure Record where
  productName : Option String := none
  productNameEng : Option String := none
  applicationNumber : Option String := none
  registerStatus : Option String := none
  publicationNumber : Option String := none
  registrationNumber : Option (List String) := none
  internationalRegNumbers : Option (List String) := none
  priorityClaimNumList : Option (List String) := none
  asignProductMainCodeList : Option (List String) := none
  viennaCodeList : Option (List String) := none
  similarity_score : Option ℚ := none
  deriving DecidableEq

/-- The keyword arguments of `search_searchmarks` (`None` = criterion absent;
the router also passes `limit=None` for unbounded search). -/
structure Query where
  productName : Option String := none
  status : Option String := none
  applicationNumber : Option String := none
  publicationNumber : Option String := none
  registrationNumber : Option String := none
  internationalRegNumbers : Option String := none
  priorityClaimNumList : Option String := none
  asignProductMainCodeList : Option String := none
  viennaCodeList : Option String := none
  limit : Option Int := some 10
  use_fuzzy_search : Bool := false
  deriving DecidableEq

/-- Length of a longest common subsequence, with explicit fuel (the fuel
`|a| + |b|` always suffices, and fueled structural recursion keeps the
definition kernel-reducible). -/
def lcsAux : Nat → List Char → List Char → Nat
  | 0, _, _ => 0
  | _ + 1, [], _ => 0
  | _ + 1, _, [] => 0
  | f + 1, a :: as, b :: bs =>
      if a == b then lcsAux f as bs + 1
      else max (lcsAux f (a :: as) bs) (lcsAux f as (b :: bs))

/-- Longest-common-subsequence length of two character lists. -/
def lcsLen (a b : List Char) : Nat := lcsAux (a.length + b.length) a b

/-- rapidfuzz `fuzz.ratio`: the normalized indel similarity in `[0,100]`,
`100 * (1 - dist/(|a|+|b|))` where `dist = |a|+|b| - 2*lcs`, i.e.
`200*lcs/(|a|+|b|)`; two empty strings score 100. -/
def fuzzRatio (a b : String) : ℚ :=
  if a.toList.length + b.toList.length = 0 then 100
  else (200 * (lcsLen a.toList b.toList : ℚ)) /
    ((a.toList.length + b.toList.length : Nat) : ℚ)

/-- Fuzzy score of one record against the lowercased keyword
(`database.py` lines 84-93): `max(korean_score, eng_score)`, where an
absent or empty name field leaves its side at 0. -/
def itemScore (pn : String) (r : Record) : ℚ :=
  let korean_score : ℚ :=
    match r.productName with
    | some v => if v.isEmpty then 0 else fuzzRatio pn (pyLower v)
    | none => 0
  let eng_score : ℚ :=
    match r.productNameEng with
    | some v => if v.isEmpty then 0 else fuzzRatio pn (pyLower v)
    | none => 0
  max korean_score eng_score

/-- `item['similarity_score'] = similarity_score` (line 96). -/
def withScore (pn : String) (r : Record) : Record :=
  { r with similarity_score := some (itemScore pn r) }

/-- The fuzzy loop's appended results (lines 82-97): records scoring at least
40, each carrying the score just written onto it. -/
def fuzzyLoop (pn : String) : List Record → List Record
  | [] => []
  | r :: rs =>
      if 40 ≤ itemScore pn r then withScore pn r :: fuzzyLoop pn rs
      else fuzzyLoop pn rs

/-- Effect of the fuzzy loop on the shared dataset: `self.data.copy()` is a
shallow copy, so the score write on line 96 lands on every stored record
reaching the threshold. -/
def fuzzyMutate (pn : String) : List Record → List Record
  | [] => []
  | r :: rs =>
      (if 40 ≤ itemScore pn r then withScore pn r else r) :: fuzzyMutate pn rs

/-- The sort key `lambda x: x['similarity_score']` (always present on the
fuzzy results when read). -/
def scoreKey (r : Record) : ℚ := r.similarity_score.getD 0

/-- Stable descending insertion: place `x` after strictly greater keys and
before equal-or-smaller keys. -/
def insertDesc (x : Record) : List Record → List Record
  | [] => [x]
  | y :: ys => if scoreKey x < scoreKey y then y :: insertDesc x ys else x :: y :: ys

/-- Python `sorted(fuzzy_results, key=lambda x: x['similarity_score'],
reverse=True)`: the stable descending sort by score (line 100). -/
def sortDesc : List Record → List Record
  | [] => []
  | x :: xs => insertDesc x (sortDesc xs)

/-- Format one already-stripped code token (lines 120-128): when `int(code)`
parses to a value `< 10`, prepend `"0"` to the raw token (`f"0{code}"`);
otherwise, or on `ValueError`, keep the token unchanged. -/
def formatCode (code : String) : String :=
  match pyInt code with
  | some n => if n < 10 then "0" ++ code else code
  | none => code

/-- Lines 116-128: split the filter on commas, strip each token, format each. -/
def formatCodes (s : String) : List String :=
  ((pySplitComma s).map pyStrip).map formatCode

/-- Non-fuzzy name predicate (lines 103-107): the lowercased keyword is a raw
substring of `productName` or of `productNameEng` (the record side is NOT
lowercased by the source). -/
def nameMatch (pn : String) (item : Record) : Bool :=
  (match item.productName with
    | some v => !v.isEmpty && pyIn pn v
    | none => false) ||
  (match item.productNameEng with
    | some v => !v.isEmpty && pyIn pn v
    | none => false)

/-- Code-list predicate (lines 130-134): field truthy, and some formatted
code is a member of the record's code list (Python `in` on a list is exact
element equality). -/
def codeMatch (codes : List String) (item : Record) : Bool :=
  match item.asignProductMainCodeList with
  | some l => !l.isEmpty && codes.any (fun c => l.contains c)
  | none => false

/-- Substring filter on an optional string field (applicationNumber and
publicationNumber passes). -/
def strFieldMatch (q : String) (v : Option String) : Bool :=
  match v with
  | some s => !s.isEmpty && pyIn q s
  | none => false

/-- Membership filter on an optional list-of-strings field
(registrationNumber, internationalRegNumbers, priorityClaimNumList,
viennaCodeList passes: `q in item[field]` on a JSON array). -/
def listFieldMatch (q : String) (v : Option (List String)) : Bool :=
  match v with
  | some l => !l.isEmpty && l.contains q
  | none => false

/-- The keyword pass (lines 78-107): on a truthy `productName`, either the
fuzzy score-filter-sort or the plain substring filter.  First component: the
working result list.  Second component: the post-call state of `self.data`
(only the fuzzy branch changes it, through the shared record dicts). -/
def namePass (data : List Record) (q : Query) : List Record × List Record :=
  match q.productName with
  | some pn0 =>
      if pn0.isEmpty then (data, data)
      else
        let pn := pyLower pn0
        if q.use_fuzzy_search then (sortDesc (fuzzyLoop pn data), fuzzyMutate pn data)
        else (data.filter (nameMatch pn), data)
  | none => (data, data)

/-- One `if criterion: results = [item for item in results if ...]` block:
skipped on an absent or empty criterion. -/
def optFilter (crit : Option String) (p : String → Record → Bool)
    (l : List Record) : List Record :=
  match crit with
  | some v => if v.isEmpty then l else l.filter (p v)
  | none => l

/-- Lines 74-177 of `search_searchmarks`: the filter pipeline before the
final `results[:limit]`, with the passes in source order (name, status,
main-code list, then the remaining field filters). -/
def filterPipeline (data : List Record) (q : Query) : List Record × List Record :=
  let s := namePass data q
  let r2 := optFilter q.status (fun st i => i.registerStatus == some st) s.1
  let r3 := optFilter q.asignProductMainCodeList (fun c i => codeMatch (formatCodes c) i) r2
  let r4 := optFilter q.applicationNumber (fun v i => strFieldMatch v i.applicationNumber) r3
  let r5 := optFilter q.publicationNumber (fun v i => strFieldMatch v i.publicationNumber) r4
  let r6 := optFilter q.registrationNumber (fun v i => listFieldMatch v i.registrationNumber) r5
  let r7 := optFilter q.internationalRegNumbers (fun v i => listFieldMatch v i.internationalRegNumbers) r6
  let r8 := optFilter q.priorityClaimNumList (fun v i => listFieldMatch v i.priorityClaimNumList) r7
  let r9 := optFilter q.viennaCodeList (fun v i => listFieldMatch v i.viennaCodeList) r8
  (r9, s.2)

/-- Python `l[:n]`: `None` keeps everything, `n ≥ 0` keeps the first `n`
elements, negative `n` drops the last `|n|`. -/
def pySliceTo (l : List Record) : Option Int → List Record
  | none => l
  | some n => if 0 ≤ n then l.take n.toNat else l.take (l.length - n.natAbs)

/-- `search_searchmarks` (lines 41-179): run the pipeline, truncate with
`results[:limit]`.  Returns `(result list, dataset after the call)`. -/
def search_searchmarks (data : List Record) (q : Query) : List Record × List Record :=
  let p := filterPipeline data q
  (pySliceTo p.1 q.limit, p.2)

/-- The value of `get_statistics`: Python returns `{"total": 0}` (no
`status_counts` key) on empty data, hence the `Option`. -/
structure Stats where
  total : Nat
  status_counts : Option (List (String × Nat))
  deriving DecidableEq

/-- Lookup in the insertion-ordered association list modelling the dict. -/
def alookup : List (String × Nat) → String → Option Nat
  | [], _ => none
  | (a, n) :: t, k => if a == k then some n else alookup t k

/-- `status_counts[status] = status_counts.get(status, 0) + 1` on a dict:
update in place when present, append otherwise. -/
def bump : List (String × Nat) → String → List (String × Nat)
  | [], k => [(k, 1)]
  | (a, n) :: t, k => if a == k then (a, n + 1) :: t else (a, n) :: bump t k

/-- `item.get('registerStatus', '미분류')` (line 193). -/
def statusKey (r : Record) : String := r.registerStatus.getD "미분류"

/-- `get_statistics` (lines 181-199). -/
def get_statistics (data : List Record) : Stats :=
  if data.isEmpty then { total := 0, status_counts := none }
  else
    { total := data.length
      status_counts := some (data.foldl (fun m r => bump m (statusKey r)) []) }

/-- Erase the transient score field; two records agree under `eraseScore`
exactly when all stored (JSON) fields agree. -/
def eraseScore (r : Record) : Record := { r with similarity_score := none }

/-- Number of records bucketed under status `k` by `get_statistics`. -/
def countStatus (data : List Record) (k : String) : Nat :=
  (data.filter (fun r => decide (statusKey r = k))).length

/-- A query carrying only a fuzzy name criterion, unbounded (the router's
`limit=None` call shape). -/
def fuzzyNameQuery (pn : String) : Query :=
  { productName := some pn, limit := none, use_fuzzy_search := true }

/-- A query carrying only a plain (non-fuzzy) name criterion, unbounded. -/
def plainNameQuery (pn : String) : Query :=
  { productName := some pn, limit := none }

/-- A query carrying only a main-code-list criterion, unbounded. -/
def codeQuery (c : String) : Query :=
  { asignProductMainCodeList := some c, limit := none }

/-- A record whose only populated field is the main code list `["07"]`. -/
def rec07 : Record := { asignProductMainCodeList := some ["07"] }

/-- A record whose only populated field is the main code list `["012"]`. -/
def rec012 : Record := { asignProductMainCodeList := some ["012"] }

/-- A record whose only populated field is the primary name `"Apple"`. -/
def recApple : Record := { productName := some "Apple" }

/-! Helper lemmas about the embedded operations. -/

theorem isEmpty_false_of_ne {s : String} (h : ¬ s = "") : s.isEmpty = false := by
  cases hb : s.isEmpty
  · rfl
  · exact absurd ((String.isEmpty_iff s).mp hb) h

theorem scoreKey_withScore (pn : String) (r : Record) :
    scoreKey (withScore pn r) = itemScore pn r := rfl

theorem mem_insertDesc {z x : Record} {l : List Record} :
    z ∈ insertDesc x l ↔ z = x ∨ z ∈ l := by
  induction l with
  | nil => simp [insertDesc]
  | cons y ys ih =>
      simp only [insertDesc]
      by_cases h : scoreKey x < scoreKey y
      · rw [if_pos h]
        simp only [List.mem_cons, ih]
        tauto
      · rw [if_neg h]
        simp only [List.mem_cons]

theorem mem_sortDesc {z : Record} {l : List Record} :
    z ∈ sortDesc l ↔ z ∈ l := by
  induction l with
  | nil => simp [sortDesc]
  | cons x xs ih => simp [sortDesc, mem_insertDesc, ih]

theorem pairwise_insertDesc {x : Record} {l : List Record}
    (h : l.Pairwise (fun a b => scoreKey b ≤ scoreKey a)) :
    (insertDesc x l).Pairwise (fun a b => scoreKey b ≤ scoreKey a) := by
  induction l with
  | nil => simp [insertDesc]
  | cons y ys ih =>
      rcases List.pairwise_cons.mp h with ⟨hy, hys⟩
      simp only [insertDesc]
      by_cases hc : scoreKey x < scoreKey y
      · rw [if_pos hc]
        refine List.pairwise_cons.mpr ⟨?_, ih hys⟩
        intro z hz
        rcases mem_insertDesc.mp hz with rfl | hz
        · exact le_of_lt hc
        · exact hy z hz
      · rw [if_neg hc]
        refine List.pairwise_cons.mpr ⟨?_, h⟩
        intro z hz
        rcases List.mem_cons.mp hz with rfl | hz
        · exact le_of_not_lt hc
        · exact le_trans (hy z hz) (le_of_not_lt hc)

theorem pairwise_sortDesc (l : List Record) :
    (sortDesc l).Pairwise (fun a b => scoreKey b ≤ scoreKey a) := by
  induction l with
  | nil => simp [sortDesc]
  | cons x xs ih => exact pairwise_insertDesc ih

theorem filter_insertDesc (x : Record) (l : List Record) (s : ℚ) :
    (insertDesc x l).filter (fun r => decide (scoreKey r = s)) =
      if scoreKey x = s then x :: l.filter (fun r => decide (scoreKey r = s))
      else l.filter (fun r => decide (scoreKey r = s)) := by
  induction l with
  | nil =>
      by_cases h : scoreKey x = s <;> simp [insertDesc, List.filter_cons, h]
  | cons y ys ih =>
      simp only [insertDesc]
      by_cases hc : scoreKey x < scoreKey y
      · rw [if_pos hc]
        by_cases hx : scoreKey x = s
        · have hy : ¬ (scoreKey y = s) := by
            intro hy
            rw [hx, hy] at hc
            exact lt_irrefl _ hc
          simp [List.filter_cons, hx, hy, ih]
        · by_cases hy : scoreKey y = s <;> simp [List.filter_cons, hx, hy, ih]
      · rw [if_neg hc]
        by_cases hx : scoreKey x = s <;>
          by_cases hy : scoreKey y = s <;>
            simp [List.filter_cons, hx, hy]

theorem filter_sortDesc (l : List Record) (s : ℚ) :
    (sortDesc l).filter (fun r => decide (scoreKey r = s)) =
      l.filter (fun r => decide (scoreKey r = s)) := by
  induction l with
  | nil => simp [sortDesc]
  | cons x xs ih =>
      by_cases hx : scoreKey x = s <;>
        rw [sortDesc, filter_insertDesc] <;>
          simp [hx, List.filter_cons, ih]

theorem mem_fuzzyLoop {pn : String} {r : Record} {l : List Record} :
    r ∈ fuzzyLoop pn l ↔
      ∃ r₀, r₀ ∈ l ∧ 40 ≤ itemScore pn r₀ ∧ r = withScore pn r₀ := by
  induction l with
  | nil => simp [fuzzyLoop]
  | cons x xs ih =>
      simp only [fuzzyLoop]
      by_cases h : (40 : ℚ) ≤ itemScore pn x
      · rw [if_pos h]
        simp only [List.mem_cons, ih]
        constructor
        · rintro (rfl | ⟨r₀, hr₀, hs, rfl⟩)
          · exact ⟨x, Or.inl rfl, h, rfl⟩
          · exact ⟨r₀, Or.inr hr₀, hs, rfl⟩
        · rintro ⟨r₀, (rfl | hr₀), hs, rfl⟩
          · exact Or.inl rfl
          · exact Or.inr ⟨r₀, hr₀, hs, rfl⟩
      · rw [if_neg h]
        rw [ih]
        constructor
        · rintro ⟨r₀, hr₀, hs, rfl⟩
          exact ⟨r₀, List.mem_cons_of_mem _ hr₀, hs, rfl⟩
        · rintro ⟨r₀, hr₀, hs, rfl⟩
          rcases List.mem_cons.mp hr₀ with rfl | hr₀
          · exact absurd hs h
          · exact ⟨r₀, hr₀, hs, rfl⟩

theorem filter_fuzzyLoop (pn : String) (l : List Record) (s : ℚ) :
    (fuzzyLoop pn l).filter (fun r => decide (scoreKey r = s)) =
      (l.filter (fun r => decide (40 ≤ itemScore pn r) &&
        decide (itemScore pn r = s))).map (withScore pn) := by
  induction l with
  | nil => simp [fuzzyLoop]
  | cons x xs ih =>
      simp only [fuzzyLoop]
      by_cases h : (40 : ℚ) ≤ itemScore pn x
      · rw [if_pos h]
        by_cases hs : itemScore pn x = s
        · have h' : (40 : ℚ) ≤ s := hs ▸ h
          simp [List.filter_cons, scoreKey_withScore, h, hs, h', ih]
        · simp [List.filter_cons, scoreKey_withScore, h, hs, ih]
      · rw [if_neg h]
        simp [List.filter_cons, h, ih]

theorem map_eraseScore_fuzzyMutate (pn : String) (l : List Record) :
    (fuzzyMutate pn l).map eraseScore = l.map eraseScore := by
  induction l with
  | nil => rfl
  | cons x xs ih =>
      simp only [fuzzyMutate, List.map_cons, ih]
      by_cases h : (40 : ℚ) ≤ itemScore pn x
      · rw [if_pos h]
        rfl
      · rw [if_neg h]

theorem lcsAux_le_left (f : Nat) (a b : List Char) : lcsAux f a b ≤ a.length := by
  induction f generalizing a b with
  | zero => simp [lcsAux]
  | succ f ih =>
      match a, b with
      | [], _ => simp [lcsAux]
      | _ :: _, [] => simp [lcsAux]
      | x :: xs, y :: ys =>
          simp only [lcsAux]
          by_cases h : x == y
          · rw [if_pos h]
            simpa [List.length_cons] using ih xs ys
          · rw [if_neg h]
            apply max_le
            · exact ih (x :: xs) ys
            · exact le_trans (ih xs (y :: ys)) (by simp)

theorem lcsAux_le_right (f : Nat) (a b : List Char) : lcsAux f a b ≤ b.length := by
  induction f generalizing a b with
  | zero => simp [lcsAux]
  | succ f ih =>
      match a, b with
      | [], _ => simp [lcsAux]
      | _ :: _, [] => simp [lcsAux]
      | x :: xs, y :: ys =>
          simp only [lcsAux]
          by_cases h : x == y
          · rw [if_pos h]
            simpa [List.length_cons] using ih xs ys
          · rw [if_neg h]
            apply max_le
            · exact le_trans (ih (x :: xs) ys) (by simp)
            · exact ih xs (y :: ys)

theorem fuzzRatio_nonneg (a b : String) : 0 ≤ fuzzRatio a b := by
  unfold fuzzRatio
  split
  · norm_num
  · positivity

theorem fuzzRatio_le_100 (a b : String) : fuzzRatio a b ≤ 100 := by
  unfold fuzzRatio
  split
  · norm_num
  · rename_i h
    have hpos : (0 : ℚ) < ((a.toList.length + b.toList.length : Nat) : ℚ) := by
      exact_mod_cast Nat.pos_of_ne_zero h
    rw [div_le_iff₀ hpos]
    have h1 : (lcsLen a.toList b.toList : ℚ) ≤ (a.toList.length : ℚ) := by
      exact_mod_cast lcsAux_le_left _ _ _
    have h2 : (lcsLen a.toList b.toList : ℚ) ≤ (b.toList.length : ℚ) := by
      exact_mod_cast lcsAux_le_right _ _ _
    push_cast
    linarith

theorem itemScore_nonneg (pn : String) (r : Record) : 0 ≤ itemScore pn r := by
  unfold itemScore
  apply le_max_of_le_left
  match h : r.productName with
  | none => simp
  | some v =>
      by_cases he : v.isEmpty
      · simp [he]
      · simp only [he, if_neg]
        exact fuzzRatio_nonneg _ _

theorem itemScore_le_100 (pn : String) (r : Record) : itemScore pn r ≤ 100 := by
  unfold itemScore
  apply max_le
  · match h : r.productName with
    | none => simp
    | some v =>
        by_cases he : v.isEmpty
        · simp [he]
        · simp only [he]
          simpa using fuzzRatio_le_100 pn (pyLower v)
  · match h : r.productNameEng with
    | none => simp
    | some v =>
        by_cases he : v.isEmpty
        · simp [he]
        · simp only [he]
          simpa using fuzzRatio_le_100 pn (pyLower v)

theorem itemScore_zero_of_no_names {pn : String} {r : Record}
    (h1 : strTruthy r.productName = false) (h2 : strTruthy r.productNameEng = false) :
    itemScore pn r = 0 := by
  unfold itemScore
  match hp : r.productName, he : r.productNameEng with
  | none, none => simp
  | none, some v =>
      rw [he] at h2
      simp [strTruthy] at h2
      simp [h2]
  | some v, none =>
      rw [hp] at h1
      simp [strTruthy] at h1
      simp [h1]
  | some v, some w =>
      rw [hp] at h1
      rw [he] at h2
      simp [strTruthy] at h1 h2
      simp [h1, h2]

theorem mem_of_mem_optFilter {c : Option String} {p : String → Record → Bool}
    {l : List Record} {r : Record} (h : r ∈ optFilter c p l) : r ∈ l := by
  match c with
  | none => exact h
  | some v =>
      simp only [optFilter] at h
      by_cases he : v.isEmpty
      · rw [if_pos he] at h
        exact h
      · rw [if_neg he] at h
        exact List.mem_of_mem_filter h

theorem mem_of_mem_pySliceTo {l : List Record} {o : Option Int} {r : Record}
    (h : r ∈ pySliceTo l o) : r ∈ l := by
  match o with
  | none => exact h
  | some n =>
      simp only [pySliceTo] at h
      by_cases hn : (0 : Int) ≤ n
      · rw [if_pos hn] at h
        exact List.take_subset _ _ h
      · rw [if_neg hn] at h
        exact List.take_subset _ _ h

theorem mem_search_namePass {ds : List Record} {q : Query} {r : Record}
    (h : r ∈ (search_searchmarks ds q).1) : r ∈ (namePass ds q).1 := by
  have h1 : r ∈ (filterPipeline ds q).1 := mem_of_mem_pySliceTo h
  exact mem_of_mem_optFilter (mem_of_mem_optFilter (mem_of_mem_optFilter
    (mem_of_mem_optFilter (mem_of_mem_optFilter (mem_of_mem_optFilter
      (mem_of_mem_optFilter (mem_of_mem_optFilter h1)))))))

theorem nameMatch_truthy {pn : String} {r : Record}
    (h : nameMatch pn r = true) :
    (strTruthy r.productName || strTruthy r.productNameEng) = true := by
  unfold nameMatch at h
  unfold strTruthy
  match hp : r.productName, he : r.productNameEng with
  | none, none => simp [hp, he] at h
  | none, some v =>
      rw [hp, he] at h
      simp at h
      simp [h.1]
  | some v, none =>
      rw [hp, he] at h
      simp at h
      simp [h.1]
  | some v, some w =>
      rw [hp, he] at h
      simp at h
      rcases h with h | h <;> simp [h.1]

theorem alookup_bump_self (m : List (String × Nat)) (k : String) :
    alookup (bump m k) k = some ((alookup m k).getD 0 + 1) := by
  induction m with
  | nil => simp [bump, alookup]
  | cons p t ih =>
      obtain ⟨a, n⟩ := p
      by_cases hak : a = k
      · simp [bump, alookup, hak]
      · simp [bump, alookup, hak, ih]

theorem alookup_bump_other (m : List (String × Nat)) {b k : String} (h : ¬ b = k) :
    alookup (bump m b) k = alookup m k := by
  induction m with
  | nil => simp [bump, alookup, h]
  | cons p t ih =>
      obtain ⟨a, n⟩ := p
      by_cases hab : a = b
      · have hak : ¬ a = k := hab ▸ h
        simp [bump, alookup, hab, hak, h]
      · by_cases hak : a = k
        · simp [bump, alookup, hab, hak, h, Ne.symm h]
        · simp [bump, alookup, hab, hak, h, ih]

theorem alookup_fold (ds : List Record) (m : List (String × Nat)) (k : String) :
    alookup (ds.foldl (fun m r => bump m (statusKey r)) m) k =
      match alookup m k with
      | some n => some (n + countStatus ds k)
      | none => if countStatus ds k = 0 then none else some (countStatus ds k) := by
  induction ds generalizing m with
  | nil =>
      simp only [List.foldl_nil, countStatus, List.filter_nil, List.length_nil]
      cases alookup m k <;> simp
  | cons r ds ih =>
      rw [List.foldl_cons, ih]
      by_cases hk : statusKey r = k
      · have hc : countStatus (r :: ds) k = countStatus ds k + 1 := by
          simp [countStatus, List.filter_cons, hk]
        rw [hk, alookup_bump_self, hc]
        cases halm : alookup m k with
        | none => simp [Nat.add_comm]
        | some n =>
            simp only [Option.getD_some]
            congr 1
            omega
      · have hc : countStatus (r :: ds) k = countStatus ds k := by
          simp [countStatus, List.filter_cons, hk]
        rw [alookup_bump_other m hk, hc]

theorem search_fuzzyNameQuery (ds : List Record) (pn : String) (h : ¬ pn = "") :
    (search_searchmarks ds (fuzzyNameQuery pn)).1 =
      sortDesc (fuzzyLoop (pyLower pn) ds) := by
  simp [search_searchmarks, filterPipeline, namePass, optFilter, fuzzyNameQuery,
    pySliceTo, isEmpty_false_of_ne h]

theorem search_plainNameQuery (ds : List Record) (pn : String) (h : ¬ pn = "") :
    (search_searchmarks ds (plainNameQuery pn)).1 =
      ds.filter (nameMatch (pyLower pn)) := by
  simp [search_searchmarks, filterPipeline, namePass, optFilter, plainNameQuery,
    pySliceTo, isEmpty_false_of_ne h]

theorem search_codeQuery (ds : List Record) (c : String) (h : ¬ c = "") :
    (search_searchmarks ds (codeQuery c)).1 =
      ds.filter (codeMatch (formatCodes c)) := by
  simp [search_searchmarks, filterPipeline, namePass, optFilter, codeQuery,
    pySliceTo, isEmpty_false_of_ne h]

theorem itemScore_apple : itemScore (pyLower "apple") recApple = 100 := by
  have hl : pyLower "apple" = "apple" := by decide
  have hl2 : pyLower "Apple" = "apple" := by decide
  have hfe : ("Apple" : String).isEmpty = false := by decide
  have hr : fuzzRatio "apple" "apple" = 100 := by
    have h5 : lcsLen "apple".toList "apple".toList = 5 := by decide
    have hlen : ("apple" : String).toList.length = 5 := by decide
    simp only [fuzzRatio, h5, hlen]
    norm_num
  simp only [itemScore, recApple, hl, hl2, hfe]
  simp [hr]

/-! Claim theorems. -/

/-- Claim C1, counterexample: a fuzzy-mode query does write the similarity
score onto the stored records (shallow `self.data.copy()`), so the dataset
after the call differs from the dataset before it. -/
theorem C1_fuzzy_query_mutates_dataset :
    (search_searchmarks [recApple] (fuzzyNameQuery "apple")).2 ≠ [recApple] := by
  have h2 : (search_searchmarks [recApple] (fuzzyNameQuery "apple")).2 =
      fuzzyMutate (pyLower "apple") [recApple] := by
    simp [search_searchmarks, filterPipeline, namePass, fuzzyNameQuery,
      show ("apple" : String).isEmpty = false from by decide]
  rw [h2]
  have h40 : (40 : ℚ) ≤ itemScore (pyLower "apple") recApple := by
    rw [itemScore_apple]
    norm_num
  simp only [fuzzyMutate]
  rw [if_pos h40]
  intro hcontra
  have h1 : withScore (pyLower "apple") recApple = recApple := by
    simpa using hcontra
  have h3 : (withScore (pyLower "apple") recApple).similarity_score = none := by
    rw [h1]
    rfl
  simp [withScore] at h3

/-- Claim C1, amended: a query never changes the dataset's length, order, or
any stored field other than `similarity_score`; a non-fuzzy query, or any
query without a truthy name criterion, leaves the dataset fully unchanged
(only a fuzzy name query writes scores onto stored records). -/
theorem C1_dataset_preserved_up_to_score (ds : List Record) (q : Query) :
    ((search_searchmarks ds q).2).map eraseScore = ds.map eraseScore ∧
    (q.use_fuzzy_search = false → (search_searchmarks ds q).2 = ds) ∧
    (strTruthy q.productName = false → (search_searchmarks ds q).2 = ds) := by
  have hsnd : (search_searchmarks ds q).2 = (namePass ds q).2 := rfl
  by_cases hf : q.use_fuzzy_search
  · by_cases hq : strTruthy q.productName
    · obtain ⟨pn, hpn⟩ : ∃ pn, q.productName = some pn := by
        cases hqq : q.productName
        · rw [hqq] at hq
          simp [strTruthy] at hq
        · exact ⟨_, rfl⟩
      have hpe : pn.isEmpty = false := by
        rw [hpn] at hq
        simpa [strTruthy] using hq
      have h2 : (namePass ds q).2 = fuzzyMutate (pyLower pn) ds := by
        unfold namePass
        rw [hpn]
        simp [hpe, hf]
      refine ⟨?_, ?_, ?_⟩
      · rw [hsnd, h2]
        exact map_eraseScore_fuzzyMutate _ _
      · intro hff
        rw [hff] at hf
        simp at hf
      · intro hqf
        rw [hqf] at hq
        simp at hq
    · have h2 : (namePass ds q).2 = ds := by
        unfold namePass
        cases hqq : q.productName with
        | none => rfl
        | some pn =>
            have hpe : pn.isEmpty = true := by
              rw [hqq] at hq
              simpa [strTruthy] using hq
            simp [hpe]
      exact ⟨by rw [hsnd, h2], fun _ => by rw [hsnd, h2], fun _ => by rw [hsnd, h2]⟩
  · have h2 : (namePass ds q).2 = ds := by
      unfold namePass
      cases hqq : q.productName with
      | none => rfl
      | some pn =>
          by_cases hpe : pn.isEmpty
          · simp [hpe]
          · simp [hpe, hf]
    exact ⟨by rw [hsnd, h2], fun _ => by rw [hsnd, h2], fun _ => by rw [hsnd, h2]⟩

/-- Claim C1, witness: the amended theorem applied at a one-record dataset
and the non-fuzzy code-filter query. -/
theorem C1_dataset_preserved_up_to_score_witness :
    ((search_searchmarks [rec07] (codeQuery "7")).2).map eraseScore =
      [rec07].map eraseScore ∧
    (search_searchmarks [rec07] (codeQuery "7")).2 = [rec07] ∧
    (search_searchmarks [rec07] (codeQuery "7")).2 = [rec07] :=
  ⟨(C1_dataset_preserved_up_to_score [rec07] (codeQuery "7")).1,
   (C1_dataset_preserved_up_to_score [rec07] (codeQuery "7")).2.1 (by decide),
   (C1_dataset_preserved_up_to_score [rec07] (codeQuery "7")).2.2 (by decide)⟩

/-- Claim C2, counterexample: on a record with main code `"07"`, the filter
value `"7"` and the filter value `"07"` produce different match sets
(`"7"` normalizes to `"07"` and matches; `"07"` normalizes to `"007"` and
does not). -/
theorem C2_filter_07_not_equiv_7 :
    (search_searchmarks [rec07] (codeQuery "7")).1 ≠
      (search_searchmarks [rec07] (codeQuery "07")).1 := by
  decide

/-- Claim C2, amended: normalization prepends `"0"` to the raw token whenever
the token parses as an integer `< 10` — it does not pad to exactly two
digits — so `"7"` becomes `"07"` and matches a record with main code `"07"`,
while `"07"` becomes `"007"` and does not match that record. -/
theorem C2_zero_prepended_normalization :
    formatCodes "7" = ["07"] ∧ formatCodes "07" = ["007"] ∧
    (search_searchmarks [rec07] (codeQuery "7")).1 = [rec07] ∧
    (search_searchmarks [rec07] (codeQuery "07")).1 = [] := by
  decide

/-- Claim C3, code bug: the source lowercases only the query (line 79) and
compares it against the raw record names (lines 105-106), so the documented
case-insensitive match fails on the query `"Apple"` against the stored name
`"Apple"`, although the lowercased sides match. -/
theorem C3_query_only_lowercased :
    (search_searchmarks [recApple] (plainNameQuery "Apple")).1 = [] ∧
    pyIn (pyLower "Apple") (pyLower "Apple") = true := by
  decide

/-- Claim C4: in fuzzy mode a record enters the result exactly when the
maximum of its two name similarities (0 for a missing name) is at least 40,
and every score lies in `[0, 100]`. -/
theorem C4_fuzzy_score_threshold (ds : List Record) (pn : String) (h : pn ≠ "") :
    (∀ r, r ∈ (search_searchmarks ds (fuzzyNameQuery pn)).1 ↔
      ∃ r₀, r₀ ∈ ds ∧ 40 ≤ itemScore (pyLower pn) r₀ ∧
        r = withScore (pyLower pn) r₀) ∧
    ∀ r, 0 ≤ itemScore (pyLower pn) r ∧ itemScore (pyLower pn) r ≤ 100 := by
  constructor
  · intro r
    rw [search_fuzzyNameQuery ds pn h, mem_sortDesc, mem_fuzzyLoop]
  · exact fun r => ⟨itemScore_nonneg _ _, itemScore_le_100 _ _⟩

/-- Claim C4, witness: the threshold theorem applied at a one-record dataset
and the fuzzy query `"apple"`. -/
theorem C4_fuzzy_score_threshold_witness :
    ("apple" : String) ≠ "" ∧
    ((∀ r, r ∈ (search_searchmarks [recApple] (fuzzyNameQuery "apple")).1 ↔
      ∃ r₀, r₀ ∈ [recApple] ∧ 40 ≤ itemScore (pyLower "apple") r₀ ∧
        r = withScore (pyLower "apple") r₀) ∧
     ∀ r, 0 ≤ itemScore (pyLower "apple") r ∧ itemScore (pyLower "apple") r ≤ 100) :=
  ⟨by decide, C4_fuzzy_score_threshold [recApple] "apple" (by decide)⟩

/-- Claim C5: the fuzzy result is ordered by descending score, and for every
score value the records carrying it appear in their original dataset order
(the sort is stable). -/
theorem C5_fuzzy_sorted_stable (ds : List Record) (pn : String) (h : pn ≠ "") :
    ((search_searchmarks ds (fuzzyNameQuery pn)).1).Pairwise
      (fun a b => scoreKey b ≤ scoreKey a) ∧
    ∀ s : ℚ, ((search_searchmarks ds (fuzzyNameQuery pn)).1).filter
        (fun r => decide (scoreKey r = s)) =
      (ds.filter (fun r => decide (40 ≤ itemScore (pyLower pn) r) &&
        decide (itemScore (pyLower pn) r = s))).map (withScore (pyLower pn)) := by
  have hq := search_fuzzyNameQuery ds pn h
  constructor
  · rw [hq]
    exact pairwise_sortDesc _
  · intro s
    rw [hq, filter_sortDesc, filter_fuzzyLoop]

/-- Claim C5, witness: the ordering theorem applied at a one-record dataset
and the fuzzy query `"apple"`. -/
theorem C5_fuzzy_sorted_stable_witness :
    ("apple" : String) ≠ "" ∧
    (((search_searchmarks [recApple] (fuzzyNameQuery "apple")).1).Pairwise
      (fun a b => scoreKey b ≤ scoreKey a) ∧
     ∀ s : ℚ, ((search_searchmarks [recApple] (fuzzyNameQuery "apple")).1).filter
        (fun r => decide (scoreKey r = s)) =
      ([recApple].filter (fun r => decide (40 ≤ itemScore (pyLower "apple") r) &&
        decide (itemScore (pyLower "apple") r = s))).map (withScore (pyLower "apple"))) :=
  ⟨by decide, C5_fuzzy_sorted_stable [recApple] "apple" (by decide)⟩

/-- Claim C6, counterexample: `"01"` is a substring of `"012"`, yet the
record whose main-code list is `["012"]` does not pass the filter `"01"`
(the stored field is a list, so Python `in` is exact element membership, and
`"01"` normalizes to `"001"` besides). -/
theorem C6_substring_containment_false :
    pyIn "01" "012" = true ∧
    (search_searchmarks [rec012] (codeQuery "01")).1 = [] := by
  decide

/-- Claim C6, amended: a record passes the code-list filter exactly when its
main-code list is present, nonempty, and contains one of the normalized
filter codes as an exact element (string equality, not substring); in
particular `["012"]` does not match filter `"01"`. -/
theorem C6_exact_membership (ds : List Record) (c : String) (h : c ≠ "")
    (r : Record) :
    r ∈ (search_searchmarks ds (codeQuery c)).1 ↔
      r ∈ ds ∧ ∃ l, r.asignProductMainCodeList = some l ∧ l ≠ [] ∧
        ∃ fc, fc ∈ formatCodes c ∧ fc ∈ l := by
  rw [search_codeQuery ds c h, List.mem_filter]
  apply and_congr_right
  intro _
  unfold codeMatch
  cases hm : r.asignProductMainCodeList with
  | none => simp
  | some l => simp [List.any_eq_true, and_assoc]

/-- Claim C6, witness: the membership theorem applied at the record with
main-code list `["07"]` and the filter `"7"`. -/
theorem C6_exact_membership_witness :
    ("7" : String) ≠ "" ∧
    (rec07 ∈ (search_searchmarks [rec07] (codeQuery "7")).1 ↔
      rec07 ∈ [rec07] ∧ ∃ l, rec07.asignProductMainCodeList = some l ∧ l ≠ [] ∧
        ∃ fc, fc ∈ formatCodes "7" ∧ fc ∈ l) :=
  ⟨by decide, C6_exact_membership [rec07] "7" (by decide) rec07⟩

/-- Claim C7: the result is the filtered sequence truncated by `results[:limit]`:
`limit = None` returns the full filtered set, `limit = 0` returns the empty
sequence, and any nonnegative `limit` takes the first `limit` elements. -/
theorem C7_limit_truncation (ds : List Record) (q : Query) :
    ((search_searchmarks ds { q with limit := none }).1 =
      (filterPipeline ds q).1) ∧
    ((search_searchmarks ds { q with limit := some 0 }).1 = []) ∧
    ∀ n : Int, 0 ≤ n →
      (search_searchmarks ds { q with limit := some n }).1 =
        ((filterPipeline ds q).1).take n.toNat := by
  refine ⟨rfl, ?_, ?_⟩
  · show pySliceTo (filterPipeline ds { q with limit := some 0 }).1 (some 0) = []
    simp [pySliceTo]
  · intro n hn
    show pySliceTo (filterPipeline ds { q with limit := some n }).1 (some n) =
      ((filterPipeline ds q).1).take n.toNat
    have he : filterPipeline ds { q with limit := some n } =
        filterPipeline ds q := rfl
    rw [he]
    simp [pySliceTo, hn]

/-- Claim C7, witness: the truncation theorem applied at a one-record dataset
and the code-filter query, with `n = 1`. -/
theorem C7_limit_truncation_witness :
    ((search_searchmarks [rec07] { codeQuery "7" with limit := none }).1 =
      (filterPipeline [rec07] (codeQuery "7")).1) ∧
    ((search_searchmarks [rec07] { codeQuery "7" with limit := some 0 }).1 = []) ∧
    ((0 : Int) ≤ 1 ∧
      (search_searchmarks [rec07] { codeQuery "7" with limit := some 1 }).1 =
        ((filterPipeline [rec07] (codeQuery "7")).1).take (Int.toNat 1)) :=
  ⟨(C7_limit_truncation [rec07] (codeQuery "7")).1,
   (C7_limit_truncation [rec07] (codeQuery "7")).2.1,
   by decide,
   (C7_limit_truncation [rec07] (codeQuery "7")).2.2 1 (by decide)⟩

/-- Claim C8, counterexample: on the empty dataset `get_statistics` returns
only `{"total": 0}` — the `status_counts` component is absent, so the
operation does not return both pieces for every dataset. -/
theorem C8_empty_dataset_lacks_status_counts :
    (get_statistics ([] : List Record)).status_counts = none ∧
    (get_statistics ([] : List Record)).total = 0 := by
  decide

/-- Claim C8, amended: for every nonempty dataset, `get_statistics` returns
the total record count together with a `status_counts` map that holds, for
exactly the status values occurring in the data (absent `registerStatus`
bucketed under the sentinel `"미분류"`), the number of records carrying that
value; the empty dataset yields `{"total": 0}` without `status_counts`. -/
theorem C8_statistics_nonempty (ds : List Record) (h : ds ≠ []) :
    (get_statistics ds).total = ds.length ∧
    ∃ m, (get_statistics ds).status_counts = some m ∧
      ∀ k, alookup m k =
        if countStatus ds k = 0 then none else some (countStatus ds k) := by
  have hne : ds.isEmpty = false := by
    cases ds with
    | nil => exact absurd rfl h
    | cons x xs => rfl
  refine ⟨by simp [get_statistics, hne], ?_⟩
  refine ⟨ds.foldl (fun m r => bump m (statusKey r)) [],
    by simp [get_statistics, hne], ?_⟩
  intro k
  have hf := alookup_fold ds [] k
  simpa [alookup] using hf

/-- Claim C8, witness: the statistics theorem applied at a one-record
dataset. -/
theorem C8_statistics_nonempty_witness :
    ([rec07] : List Record) ≠ [] ∧
    ((get_statistics [rec07]).total = ([rec07] : List Record).length ∧
     ∃ m, (get_statistics [rec07]).status_counts = some m ∧
       ∀ k, alookup m k =
         if countStatus [rec07] k = 0 then none
         else some (countStatus [rec07] k)) :=
  ⟨by decide, C8_statistics_nonempty [rec07] (by decide)⟩

/-- Claim C9: the engine is total on well-formed queries — a code token that
does not parse as an integer passes through normalization unchanged, and a
record lacking the name fields is treated as a non-match by an active name
filter (in both modes), never as an error. -/
theorem C9_total_and_recovering :
    (∀ tok : String, pyInt tok = none → formatCode tok = tok) ∧
    ∀ (ds : List Record) (q : Query), strTruthy q.productName = true →
      ∀ r ∈ (search_searchmarks ds q).1,
        (strTruthy r.productName || strTruthy r.productNameEng) = true := by
  constructor
  · intro tok h
    simp [formatCode, h]
  · intro ds q hq r hr
    have h1 : r ∈ (namePass ds q).1 := mem_search_namePass hr
    obtain ⟨pn, hpn⟩ : ∃ pn, q.productName = some pn := by
      cases hqq : q.productName
      · rw [hqq] at hq
        simp [strTruthy] at hq
      · exact ⟨_, rfl⟩
    have hpe : pn.isEmpty = false := by
      rw [hpn] at hq
      simpa [strTruthy] using hq
    unfold namePass at h1
    rw [hpn] at h1
    simp only [hpe, Bool.false_eq_true, if_false] at h1
    by_cases hf : q.use_fuzzy_search
    · rw [if_pos hf] at h1
      rw [mem_sortDesc, mem_fuzzyLoop] at h1
      obtain ⟨r₀, hmem, hs, rfl⟩ := h1
      cases hp : strTruthy r₀.productName with
      | true =>
          simp [withScore, strTruthy] at hp ⊢
          simp [hp]
      | false =>
          cases hpe2 : strTruthy r₀.productNameEng with
          | true =>
              simp [withScore, strTruthy] at hpe2 ⊢
              simp [hpe2]
          | false =>
              exfalso
              have h0 := @itemScore_zero_of_no_names (pyLower pn) r₀ hp hpe2
              rw [h0] at hs
              norm_num at hs
    · rw [if_neg hf] at h1
      rw [List.mem_filter] at h1
      exact nameMatch_truthy h1.2

/-- Claim C9, witness: the totality theorem applied to the unparseable token
`"x"` and to a plain name query over a one-record dataset. -/
theorem C9_total_and_recovering_witness :
    pyInt "x" = none ∧ formatCode "x" = "x" ∧
    strTruthy (plainNameQuery "Apple").productName = true ∧
    ∀ r ∈ (search_searchmarks [recApple] (plainNameQuery "Apple")).1,
      (strTruthy r.productName || strTruthy r.productNameEng) = true :=
  ⟨by decide, C9_total_and_recovering.1 "x" (by decide), by decide,
   C9_total_and_recovering.2 [recApple] (plainNameQuery "Apple") (by decide)⟩

/-- Claim C10: setting any of the nine filter criteria to the empty string is
the same as omitting it (each pass is guarded by truthiness), for both the
result list and the post-call dataset, in either mode. -/
theorem C10_empty_string_skips_filter (ds : List Record) (q : Query) :
    search_searchmarks ds { q with productName := some "" } =
      search_searchmarks ds { q with productName := none } ∧
    search_searchmarks ds { q with status := some "" } =
      search_searchmarks ds { q with status := none } ∧
    search_searchmarks ds { q with applicationNumber := some "" } =
      search_searchmarks ds { q with applicationNumber := none } ∧
    search_searchmarks ds { q with publicationNumber := some "" } =
      search_searchmarks ds { q with publicationNumber := none } ∧
    search_searchmarks ds { q with registrationNumber := some "" } =
      search_searchmarks ds { q with registrationNumber := none } ∧
    search_searchmarks ds { q with internationalRegNumbers := some "" } =
      search_searchmarks ds { q with internationalRegNumbers := none } ∧
    search_searchmarks ds { q with priorityClaimNumList := some "" } =
      search_searchmarks ds { q with priorityClaimNumList := none } ∧
    search_searchmarks ds { q with asignProductMainCodeList := some "" } =
      search_searchmarks ds { q with asignProductMainCodeList := none } ∧
    search_searchmarks ds { q with viennaCodeList := some "" } =
      search_searchmarks ds { q with viennaCodeList := none } :=
  ⟨rfl, rfl, rfl, rfl, rfl, rfl, rfl, rfl, rfl⟩

end Searchmark
